import Mathlib

set_option maxRecDepth 8000

/-!
Shallow embedding of the 401k XML extraction core
(`src/services/xmlExtractionService.ts`).

JavaScript records (plain objects keyed by strings) are modelled as
insertion-ordered association lists: assignment to an existing key updates
it in place, assignment to a fresh key appends, and iteration
(`Object.entries` / `Object.values`) follows list order.  JS string
methods (`trim`, `toLowerCase`, `split`, …) are implemented by structural
recursion over the string's character list so every definition evaluates;
JS truthiness of strings (empty = falsy) is made explicit at each use
site.
-/

/-- Record lookup, `obj[k]`: first binding wins (keys are unique by
construction of `setAssoc`). -/
def getAssoc {α : Type} : List (String × α) → String → Option α
  | [], _ => none
  | (k, v) :: rest, n => if k = n then some v else getAssoc rest n

/-- Record assignment, `obj[k] = v`: update in place when the key exists,
append otherwise (JS insertion-order semantics). -/
def setAssoc {α : Type} : List (String × α) → String → α → List (String × α)
  | [], n, f => [(n, f)]
  | (k, v) :: rest, n, f =>
      if k = n then (k, f) :: rest else (k, v) :: setAssoc rest n f

/-- Leading and trailing whitespace removed, JS `s.trim()`. -/
def csTrim (cs : List Char) : List Char :=
  ((cs.dropWhile Char.isWhitespace).reverse.dropWhile Char.isWhitespace).reverse

/-- JS `s.trim()` on strings. -/
def strTrim (s : String) : String :=
  String.mk (csTrim s.data)

/-- JS `s.toLowerCase()` (ASCII). -/
def strToLower (s : String) : String :=
  String.mk (s.data.map Char.toLower)

/-- JS `s.startsWith(pre)`. -/
def strStartsWith (pre s : String) : Bool :=
  pre.data.isPrefixOf s.data

/-- JS `s.endsWith(suf)`. -/
def strEndsWith (suf s : String) : Bool :=
  suf.data.isSuffixOf s.data

/-- JS `s.slice(n)` for a nonnegative count, dropping `n` leading
characters. -/
def strDrop (s : String) (n : Nat) : String :=
  String.mk (s.data.drop n)

/-- Removal of the last `n` characters (JS `s.slice(0, -n)`). -/
def strDropRight (s : String) (n : Nat) : String :=
  String.mk (s.data.take (s.data.length - n))

/-- JS `s.split(sep)` for a one-character separator. -/
def splitCharAux (sep : Char) : List Char → List Char → List (List Char)
  | [], cur => [cur.reverse]
  | c :: rest, cur =>
    if c = sep then cur.reverse :: splitCharAux sep rest []
    else splitCharAux sep rest (c :: cur)

/-- JS `s.split(sep)` on strings, single-character separator. -/
def strSplitOnChar (sep : Char) (s : String) : List String :=
  (splitCharAux sep s.data []).map String.mk

/-- JS `a || b` on an optional string: `undefined` and `""` are falsy. -/
def jsOr : Option String → String → String
  | none, b => b
  | some a, b => if a = "" then b else a

/-- JS truthiness filter on an optional string: `undefined` and `""`
collapse to a miss. -/
def truthyStr : Option String → Option String
  | none => none
  | some t => if t = "" then none else some t

/-- The idiom `(s).trim() || undefined`: trim, and turn an empty result
into absence. -/
def optTrim (s : String) : Option String :=
  let t := strTrim s
  if t = "" then none else some t

/-- Occurrence of `needle` as a contiguous sublist of `haystack`: it is a
prefix at some position. -/
def listContains (needle : List Char) : List Char → Bool
  | [] => needle.isEmpty
  | c :: rest => needle.isPrefixOf (c :: rest) || listContains needle rest

/-- JS `haystack.includes(needle)` (exact, case-sensitive). -/
def containsSubstr (needle haystack : String) : Bool :=
  listContains needle.data haystack.data

/-- Case-insensitive substring test, `/needle/i.test(haystack)` for an
all-lowercase needle. -/
def containsCI (needle haystack : String) : Bool :=
  containsSubstr needle (strToLower haystack)

/-- Case-insensitive prefix test, `/^needle/i.test(s)` for an
all-lowercase needle. -/
def startsWithCI (needle s : String) : Bool :=
  strStartsWith needle (strToLower s)

/-- The regex `replace(/^"|"$/g, '')`: strip one leading and one trailing
double-quote character. -/
def stripQuotes (n : String) : String :=
  let n1 := if strStartsWith "\"" n then strDrop n 1 else n
  if strEndsWith "\"" n1 then strDropRight n1 1 else n1

/-- Value of a maximal leading run of decimal digits, if any. -/
def digitsVal (cs : List Char) : Option Nat :=
  let ds := cs.takeWhile Char.isDigit
  if ds = [] then none
  else some (ds.foldl (fun n c => n * 10 + (c.toNat - 48)) 0)

/-- JS `parseInt(s, 10)`: skip leading whitespace, optional sign, then a
maximal digit run; `none` models `NaN`. -/
def jsParseInt (s : String) : Option Int :=
  match csTrim s.data with
  | '-' :: rest => (digitsVal rest).map (fun n => -(n : Int))
  | '+' :: rest => (digitsVal rest).map (fun n => (n : Int))
  | cs => (digitsVal cs).map (fun n => (n : Int))

/-- The idiom `parseInt(attr || '0', 10) || 0` applied to an attribute
that may be absent: `NaN` collapses to `0`. -/
def jsParseIntOr0 (attr : Option String) : Int :=
  (jsParseInt (jsOr attr "0")).getD 0

/-- One `<LinkName value=... selected=... insert=...>text?</LinkName>`
element as the DOM exposes it; `none` attribute = `getAttribute` null. -/
structure LinkNode where
  value : Option String := none
  selected : Option String := none
  insert : Option String := none
  textContent : String := ""
deriving DecidableEq

/-- One `<PlanData FieldName=...>text?</PlanData>` element. -/
structure PlanDataNode where
  fieldName : Option String := none
  textContent : String := ""
deriving DecidableEq

/-- A well-formed document, abstracted to the two node lists the code
reads (`getElementsByTagName`, in document order). -/
structure ParsedXml where
  linkNames : List LinkNode := []
  planDatas : List PlanDataNode := []
deriving DecidableEq

/-- Raw document text after the XML parser: either well-formed, or
malformed.  Modelled from the spec: the spec (§4.1, §7) has the Flag
Extractor fail with a `ParseError` on a document that is not well-formed
XML; the DOM parsing itself is an external API not present in `src/`. -/
inductive XmlDoc where
  | malformed : XmlDoc
  | parsed : ParsedXml → XmlDoc
deriving DecidableEq

/-- The `LinkFlag` record: `{ selected, insert, text? }`. -/
structure LinkFlag where
  selected : Int
  insert : Int
  text : Option String := none
deriving DecidableEq

/-- The flag table `Record<string, LinkFlag>`. -/
abbrev FlagMap := List (String × LinkFlag)

/-- Name under which a `LinkName` element registers:
`(el.getAttribute('value') || '').trim()`. -/
def nameOfLink (el : LinkNode) : String :=
  strTrim (jsOr el.value "")

/-- Flag built from a `LinkName` element (lines 19-22 of the source). -/
def flagOfLink (el : LinkNode) : LinkFlag :=
  { selected := jsParseIntOr0 el.selected
    insert := jsParseIntOr0 el.insert
    text := optTrim el.textContent }

/-- One iteration of the `LinkName` loop in `parseXmlToFlags`: skip an
empty name, otherwise assign `flags[name] = {selected, insert, text}`. -/
def processLinkNode (flags : FlagMap) (el : LinkNode) : FlagMap :=
  let name := nameOfLink el
  if name = "" then flags
  else setAssoc flags name (flagOfLink el)

/-- One iteration of the `PlanData` loop in `parseXmlToFlags`: create a
`selected=1, insert=0` flag when the name is new; otherwise backfill only
an empty `text`, never touching `selected`/`insert`. -/
def processPlanDataNode (flags : FlagMap) (el : PlanDataNode) : FlagMap :=
  let name := strTrim (jsOr el.fieldName "")
  if name = "" then flags
  else
    let text := optTrim el.textContent
    match getAssoc flags name with
    | none => setAssoc flags name { selected := 1, insert := 0, text := text }
    | some lf =>
        if text.isSome && (truthyStr lf.text).isNone then
          setAssoc flags name { lf with text := text }
        else flags

/-- The Flag Extractor `parseXmlToFlags` on a well-formed document:
fold the `LinkName` elements, then the `PlanData` elements. -/
def parseXmlToFlags (doc : ParsedXml) : FlagMap :=
  doc.planDatas.foldl processPlanDataNode
    (doc.linkNames.foldl processLinkNode [])

/-- A parse failure, as the spec's `ParseError`. -/
inductive ParseError where
  | parseError : ParseError
deriving DecidableEq

/-- Flag extraction on raw document text: raises `ParseError` on a
malformed document (spec §4.1), succeeds with the flag map otherwise. -/
def parseXmlToFlagsE : XmlDoc → Except ParseError FlagMap
  | .malformed => .error .parseError
  | .parsed px => .ok (parseXmlToFlags px)

/-- JS `\w` character class: ASCII letters, digits, underscore. -/
def isWordChar (c : Char) : Bool :=
  c.isAlphanum || c = '_'

/-- Match of `/^(is|does|will|are|has|have)\b/` on an already
trimmed-and-lowercased string: some alternative is a prefix followed by a
word boundary. -/
def startsWithInterrogative (p : String) : Bool :=
  ["is", "does", "will", "are", "has", "have"].any (fun w =>
    w.data.isPrefixOf p.data &&
      (match p.data.drop w.length with
       | [] => true
       | c :: _ => !isWordChar c))

/-- The Yes/No Classifier `looksYesNoPrompt`: trailing question mark and a
leading interrogative auxiliary. -/
def looksYesNoPrompt (promptText : String) : Bool :=
  let p := strToLower (strTrim promptText)
  strEndsWith "?" p && startsWithInterrogative p

/-- Truthy text of a flag: `lf.text && lf.text.trim()` returns `lf.text`
(untrimmed) when its trim is non-empty. -/
def textVal (lf : LinkFlag) : Option String :=
  match lf.text with
  | none => none
  | some t => if strTrim t = "" then none else some t

/-- Suffix tokens tried by the Related-Text Resolver. -/
def relatedSuffixes : List String :=
  ["Age", "Amt", "Amount", "Perc", "Percent", "Dollar", "Dollars"]

/-- The Related-Text Resolver `relatedText`: own text, else the `Main`-
stripped base's text, else the first suffix variant with text. -/
def relatedText (name : String) (flags : FlagMap) : Option String :=
  match (getAssoc flags name).bind textVal with
  | some t => some t
  | none =>
    match
      (if strEndsWith "Main" name
       then (getAssoc flags (strDropRight name 4)).bind textVal
       else none) with
    | some t => some t
    | none =>
      relatedSuffixes.findSome? (fun suf =>
        (getAssoc flags (name ++ suf)).bind textVal)

/-- The helper `cleanName`: strip one surrounding pair of quotes, then
trim. -/
def cleanName (n : String) : String :=
  strTrim (stripQuotes n)

/-- Candidate-linkname parsing shared by the resolver and orchestrators:
`linkcsv.split(',').map(cleanName).filter(Boolean)`. -/
def parseLinkcsv (linkcsv : String) : List String :=
  ((strSplitOnChar ',' linkcsv).map cleanName).filter (fun s => s ≠ "")

/-- Whether a flag exists for the name and has `selected === 1`. -/
def isSelected (flags : FlagMap) (nm : String) : Bool :=
  match getAssoc flags nm with
  | some lf => lf.selected == 1
  | none => false

/-- First candidate whose flag has `selected === 1` (the multi-candidate
scan loop, lines 89-93). -/
def firstSelected (names : List String) (flags : FlagMap) : Option String :=
  names.find? (fun nm => isSelected flags nm)

/-- The single-candidate path of `chooseValueForLinkcsv`
(lines 74-86 of the source). -/
def singleAnswer (nm promptText : String) (flags : FlagMap) : Option String :=
  match getAssoc flags nm with
  | none => none
  | some lf =>
    if looksYesNoPrompt promptText then
      some (if lf.selected == 1 then "Yes" else "No")
    else
      match truthyStr (relatedText nm flags) with
      | some txt => some txt
      | none =>
        if startsWithCI "yes" nm then
          some (if lf.selected == 1 then "Yes" else "No")
        else if startsWithCI "no" nm then
          some (if lf.selected == 1 then "No" else "Yes")
        else none

/-- The multi-candidate answer for the chosen (first selected) name
(lines 95-103 of the source). -/
def multiAnswer (chosen promptText : String) (flags : FlagMap) : Option String :=
  if looksYesNoPrompt promptText then
    if containsCI "yes" chosen then some "Yes"
    else if containsCI "no" chosen then some "No"
    else some "Yes"
  else
    truthyStr (relatedText chosen flags)

/-- The Candidate Resolver `chooseValueForLinkcsv`. -/
def chooseValueForLinkcsv (linkcsv promptText : String) (flags : FlagMap) :
    Option String :=
  match parseLinkcsv linkcsv with
  | [] => none
  | [nm] => singleAnswer nm promptText flags
  | nm1 :: nm2 :: rest =>
    match firstSelected (nm1 :: nm2 :: rest) flags with
    | none => none
    | some chosen => multiAnswer chosen promptText flags

/-- Accumulating scanner for maximal digit runs (`/\d+/g`); the
accumulator holds the current run, reversed. -/
def digitRunsAux : List Char → List Char → List String
  | [], acc => if acc = [] then [] else [String.mk acc.reverse]
  | c :: rest, acc =>
    if c.isDigit then digitRunsAux rest (c :: acc)
    else if acc = [] then digitRunsAux rest []
    else String.mk acc.reverse :: digitRunsAux rest []

/-- Maximal runs of decimal digits in a character list, as strings
(the regex match `/\d+/g`). -/
def digitRuns (cs : List Char) : List String :=
  digitRunsAux cs []

/-- Keyword set of one linkname (`linknameKeywords`): fixed vocabulary
hits plus embedded digit runs; `eraseDups` gives the JS `Set`'s distinct
elements in insertion order. -/
def linknameKeywords (name : String) : List String :=
  let n := strToLower name
  ((if containsSubstr "match" n then ["match"] else []) ++
   (if containsSubstr "profit" n || containsSubstr "non elective" n
       || containsSubstr "nonelective" n then ["profit"] else []) ++
   (if containsSubstr "immediate" n || containsSubstr "vest100" n
      then ["immediate"] else []) ++
   (if containsSubstr "percent" n || containsSubstr "perc" n
      then ["percent"] else []) ++
   (if containsSubstr "dollar" n then ["dollar"] else []) ++
   digitRuns n.data).eraseDups

/-- Literal `\n` escape sequences turned into real newlines,
`replace(/\\n/g, '\n')`, scanning left to right. -/
def replaceEscapedNewlines : List Char → List Char
  | [] => []
  | '\\' :: 'n' :: rest => '\n' :: replaceEscapedNewlines rest
  | c :: rest => c :: replaceEscapedNewlines rest

/-- Newline normalization shared verbatim by `normalizeOptionsAllowed`
and `expandVestingLabel`: turn literal `\n` sequences into newlines,
split on newline runs, trim, drop empties.  (Splitting on every single
newline and filtering empties is the same as splitting on `/\n+/` and
filtering.) -/
def splitOptionLines (txt : String) : List String :=
  ((((splitCharAux '\n' (replaceEscapedNewlines txt.data) []).map
      csTrim).filter (fun t => t ≠ [])).map String.mk)

/-- The helper `normalizeOptionsAllowed`. -/
def normalizeOptionsAllowed (txt : String) : List String :=
  splitOptionLines txt

/-- Score of one option line: how many of the keywords occur in its
lowercased text (`selKw.forEach(k => { if (low.includes(k)) score++ })`;
the keyword list is duplicate-free, matching the JS `Set`). -/
def optScore (selKw : List String) (opt : String) : Nat :=
  selKw.countP (fun k => containsSubstr k (strToLower opt))

/-- The scanning loop of `bestMatchFromOptions`: state is
`(best, bestScore)`, replaced only on a strictly greater score. -/
def bestLoop (score : String → Nat) :
    List String → Option String × Nat → Option String × Nat
  | [], st => st
  | o :: rest, (best, bestScore) =>
    bestLoop score rest
      (if bestScore < score o then (some o, score o) else (best, bestScore))

/-- Union of the keyword sets of the given linknames, duplicate-free in
insertion order (the JS `Set` named `selKw`). -/
def selectedKeywords (selectedNames : List String) : List String :=
  (selectedNames.flatMap linknameKeywords).eraseDups

/-- The Options Matcher `bestMatchFromOptions`. -/
def bestMatchFromOptions (selectedNames : List String)
    (optionsAllowed : String) : Option String :=
  if selectedNames = [] || optionsAllowed = "" then none
  else
    let selKw := selectedKeywords selectedNames
    let options := normalizeOptionsAllowed optionsAllowed
    (bestLoop (optScore selKw) options (none, 0)).1

/-- Maximum option score over a list (0 when empty); used to state what
the scanning loop computes. -/
def maxScoreOf (score : String → Nat) : List String → Nat
  | [] => 0
  | o :: rest => max (score o) (maxScoreOf score rest)

/-- The guard `isVestingSchedulePrompt`: mentions "vesting schedule" and
not "describe". -/
def isVestingSchedulePrompt (promptText : String) : Bool :=
  let p := strToLower (strTrim promptText)
  containsSubstr "vesting schedule" p && !containsSubstr "describe" p

/-- The graded-schedule lookup table (`gradedMap`), in the object
literal's insertion order. -/
def gradedPairs : List (String × String) :=
  [("Vest6YRGradeMatch", "2-20"), ("Vest5YRGradeMatch", "1-20"),
   ("Vest4YRGradeMatch", "1-25"), ("6YRGradedNEContr", "2-20"),
   ("5YRGradedNEContr", "1-20"), ("4YRGradedNEContr", "1-25")]

/-- The cliff-schedule lookup table (`cliffMap`). -/
def cliffPairs : List (String × String) :=
  [("Vest3YRClifMatch", "Cliff 3"), ("3YRCliffNEContr", "Cliff 3"),
   ("2YRCliffNEContr", "Cliff 2")]

/-- First table entry whose linkname is selected, yielding its label
(the `for (const [nm, label] of Object.entries(...))` loops). -/
def firstSelectedLabel (flags : FlagMap) (pairs : List (String × String)) :
    Option String :=
  pairs.findSome? (fun pr => if isSelected flags pr.1 then some pr.2 else none)

/-- The Vesting Schedule Resolver `deriveVestingShortLabel`: graded
table, then cliff table, then the quick-text-gated and unconditional
immediate markers. -/
def deriveVestingShortLabel (flags : FlagMap) (quickText : Option String) :
    Option String :=
  match firstSelectedLabel flags gradedPairs with
  | some label => some label
  | none =>
    match firstSelectedLabel flags cliffPairs with
    | some label => some label
    | none =>
      let qt := strToLower (jsOr quickText "")
      let isMatch := containsSubstr "match" qt
      let isNE := containsSubstr "non elective" qt
        || containsSubstr "non-elective" qt || containsSubstr "profit" qt
      if isMatch && ["NAVestMatch", "Vest100Match"].any (isSelected flags) then
        some "Immediate"
      else if isNE &&
          ["100VestingNEContr", "Vest100NEContr"].any (isSelected flags) then
        some "Immediate"
      else if ["VestNAQACA", "VestNAQACAMatch", "VestNAQACANE"].any
          (isSelected flags) then
        some "Immediate"
      else none

/-- Removal of every whitespace character, `replace(/\s+/g,'')`. -/
def stripWs (s : String) : String :=
  String.mk (s.data.filter (fun c => !c.isWhitespace))

/-- The label expander `expandVestingLabel`: find an option line starting
with a normalized form of the short label or a known alias, else fall
back to the fixed canonical phrase, else echo the short label. -/
def expandVestingLabel (shortLabel : String) (optionsAllowed : String) :
    Option String :=
  if shortLabel = "" then none
  else
    let lines := splitOptionLines optionsAllowed
    let s := stripWs (strToLower (strTrim shortLabel))
    let candidates :=
      [s] ++
      (if s = "cliff2" then ["cliff 2"] else []) ++
      (if s = "cliff3" then ["cliff 3"] else []) ++
      (if s = "1-20" then ["20/yr"] else [])
    match lines.find? (fun line =>
        candidates.any (fun c => strStartsWith c (stripWs (strToLower line)))) with
    | some line => some line
    | none =>
      if s = "1-25" then some "1-25 (0=0, 1=25, 2=50, 3=75, 4=100)"
      else if s = "1-20" then
        some "20/Yr (0=0, 1=20, 2=40, 3=60, 4=80, 5=100)"
      else if s = "2-20" then
        some "2-20 (0=0, 1=0, 2=20, 3=40, 4=60, 5=80, 6=100)"
      else if s = "cliff2" || s = "cliff 2" then
        some "Cliff 2 (0=0, 1=0, 2=100)"
      else if s = "cliff3" || s = "cliff 3" then
        some "Cliff 3 (0=0, 1=0, 2=0, 3=100)"
      else if s = "immediate" then
        some "Immediate (100% immediate vesting)"
      else some shortLabel

/-- One configured prompt (`Prompt` in `types.ts`). -/
structure Prompt where
  key : String
  prompt : String
  linknames : Option String := none
  quick : Option String := none
deriving DecidableEq

/-- The `OptionsByPrompt` record: prompt text keyed to a newline-
delimited allowed-options string. -/
abbrev OptsMap := List (String × String)

/-- The quick-text fallback `deriveLabelFromQuick`: text after the last
comma, trimmed and quote-stripped; no comma means no label. -/
def deriveLabelFromQuick (quick : Option String) : Option String :=
  match quick with
  | none => none
  | some quick =>
    let q := strTrim quick
    if q = "" then none
    else if q.data.contains ',' then
      let label := stripQuotes (strTrim ((strSplitOnChar ',' q).getLastD ""))
      if label = "" then none else some label
    else none

/-- The candidate-linkname CSV used per prompt:
`(p.linknames || p.key || '').trim()`. -/
def linkcsvOf (p : Prompt) : String :=
  strTrim (jsOr p.linknames p.key)

/-- Per-prompt value of the basic orchestrator `fillDataFromXmls`
(lines 132-145): Candidate Resolver, then the quick-text fallback gated
on any mapped — or failing that, any document-wide — selected flag. -/
def basicPromptValue (p : Prompt) (flags : FlagMap) : Option String :=
  let linkcsv := linkcsvOf p
  let val := chooseValueForLinkcsv linkcsv p.prompt flags
  if val.isNone && (jsOr p.quick "" ≠ "") then
    let names := parseLinkcsv linkcsv
    let anySelected :=
      names.any (isSelected flags) ||
        flags.any (fun e => e.2.selected == 1)
    if anySelected then
      match deriveLabelFromQuick p.quick with
      | some label => some label
      | none => val
    else val
  else val

/-- Success row of the basic orchestrator: prompts with an all-blank key
are skipped; the row is keyed by the raw `p.key`; a miss becomes
`"N/A"`. -/
def basicRow (prompts : List Prompt) (flags : FlagMap) :
    List (String × String) :=
  prompts.foldl (fun row p =>
    if strTrim p.key = "" then row
    else setAssoc row p.key ((basicPromptValue p flags).getD "N/A")) []

/-- Row produced in the `catch` branch: every prompt's key maps to
`"Processing Error"`. -/
def errorRow (prompts : List Prompt) : List (String × String) :=
  prompts.foldl (fun row p => setAssoc row p.key "Processing Error") []

/-- Record lookup used first by both enhanced lookup sites:
`optionsByPrompt[k]`. -/
def lookupOpts (opts : OptsMap) (k : String) : Option String :=
  getAssoc opts k

/-- Options string the vesting expansion sees (line 297):
`optionsByPrompt[p.prompt || ''] || ''` — the exact prompt text only. -/
def vestingOptionsFor (opts : OptsMap) (promptText : String) : String :=
  jsOr (lookupOpts opts promptText) ""

/-- Whitespace-token splitter: pieces of the character list delimited by
single whitespace characters (empty pieces arise from runs). -/
def splitWsAux : List Char → List Char → List (List Char)
  | [], cur => [cur.reverse]
  | c :: rest, cur =>
    if c.isWhitespace then cur.reverse :: splitWsAux rest []
    else splitWsAux rest (c :: cur)

/-- Prompt-text normalization of the enhanced orchestrator (line 287):
trim, collapse whitespace runs to single spaces, drop a trailing colon.
(Collapsing is rendered as splitting the trimmed text on whitespace and
rejoining the non-empty tokens with single spaces, which is the same
function.) -/
def normalizeText (s : String) : String :=
  let toks := (splitWsAux (csTrim s.data) []).filter (fun t => t ≠ [])
  let collapsed := String.mk (List.intercalate [' '] toks)
  if strEndsWith ":" collapsed then strDropRight collapsed 1 else collapsed

/-- Options string the enhanced Options Matcher stage sees (line 306):
exact prompt text first, then its normalized form, then empty. -/
def matcherOptionsFor (opts : OptsMap) (promptText : String) : String :=
  jsOr (lookupOpts opts promptText)
    (jsOr (lookupOpts opts (normalizeText promptText)) "")

/-- The vesting special-case stage of the enhanced orchestrator
(lines 294-301): runs only when the resolver missed and the prompt is a
vesting-schedule prompt; otherwise it passes the value through. -/
def vestingStage (promptText : String) (quick : Option String)
    (opts : OptsMap) (flags : FlagMap) (val : Option String) :
    Option String :=
  if val.isNone && isVestingSchedulePrompt promptText then
    match deriveVestingShortLabel flags quick with
    | some short =>
      match expandVestingLabel short (vestingOptionsFor opts promptText) with
      | some expanded => some expanded
      | none => val
    | none => val
  else val

/-- The options-matching and quick-text stage of the enhanced
orchestrator (lines 302-318). -/
def optionsStage (p : Prompt) (linkcsv : String) (opts : OptsMap)
    (flags : FlagMap) (val : Option String) : Option String :=
  if val.isNone then
    let names := parseLinkcsv linkcsv
    let selected := names.filter (isSelected flags)
    let allSelected :=
      (flags.filter (fun e => e.2.selected == 1)).map (fun e => e.1)
    let oa := matcherOptionsFor opts p.prompt
    let picked := bestMatchFromOptions selected oa
    let picked :=
      if picked.isNone && selected = [] then
        bestMatchFromOptions allSelected oa
      else picked
    let val := if picked.isSome then picked else val
    if val.isNone && (selected ≠ [] || allSelected ≠ []) then
      match deriveLabelFromQuick p.quick with
      | some label => some label
      | none => val
    else val
  else val

/-- Per-prompt value of the enhanced orchestrator
`fillDataFromXmlsEnhanced` (lines 292-319): Candidate Resolver, vesting
stage, then options/quick-text stage. -/
def enhancedPromptValue (p : Prompt) (flags : FlagMap) (opts : OptsMap) :
    Option String :=
  let linkcsv := linkcsvOf p
  let val0 := chooseValueForLinkcsv linkcsv p.prompt flags
  let val1 := vestingStage p.prompt p.quick opts flags val0
  optionsStage p linkcsv opts flags val1

/-- Success row of the enhanced orchestrator. -/
def enhancedRow (prompts : List Prompt) (opts : OptsMap) (flags : FlagMap) :
    List (String × String) :=
  prompts.foldl (fun row p =>
    if strTrim p.key = "" then row
    else setAssoc row p.key ((enhancedPromptValue p flags opts).getD "N/A")) []

/-- Result of one document inside the `try` block: a malformed document
raises (modelled by `Except.error`), a well-formed one yields its row. -/
def tryRow (rowOf : ParsedXml → List (String × String)) :
    XmlDoc → Except ParseError (List (String × String))
  | .malformed => .error .parseError
  | .parsed px => .ok (rowOf px)

/-- The document loop shared verbatim by both orchestrators: per file,
`try` the row (`catch` substitutes the error row), store it under the
filename, and in `finally` bump `processed` and report
`processed / total`.  Returns the results record and the ordered list of
reported progress fractions. -/
def runBatch (rowOf : ParsedXml → List (String × String))
    (errRow : List (String × String)) :
    List (String × XmlDoc) → List (String × List (String × String)) →
    Nat → Nat →
    List (String × List (String × String)) × List ℚ
  | [], results, _, _ => (results, [])
  | (name, doc) :: rest, results, processed, total =>
    let row :=
      match tryRow rowOf doc with
      | .ok r => r
      | .error _ => errRow
    let out := runBatch rowOf errRow rest (setAssoc results name row)
      (processed + 1) total
    (out.1, ((processed + 1 : ℚ) / (total : ℚ)) :: out.2)

/-- The basic Extraction Orchestrator `fillDataFromXmls`. -/
def fillDataFromXmls (prompts : List Prompt)
    (xmlFiles : List (String × XmlDoc)) :
    List (String × List (String × String)) × List ℚ :=
  runBatch (fun px => basicRow prompts (parseXmlToFlags px))
    (errorRow prompts) xmlFiles [] 0 xmlFiles.length

/-- The enhanced Extraction Orchestrator `fillDataFromXmlsEnhanced`. -/
def fillDataFromXmlsEnhanced (prompts : List Prompt)
    (xmlFiles : List (String × XmlDoc)) (opts : OptsMap) :
    List (String × List (String × String)) × List ℚ :=
  runBatch (fun px => enhancedRow prompts opts (parseXmlToFlags px))
    (errorRow prompts) xmlFiles [] 0 xmlFiles.length

/-- Modelled from the spec (§6, progress signal): the sequence of
progress fractions the spec prescribes for an `n`-document run —
`1/n, 2/n, …, n/n`.  Used as the reference side of the refinement
claim about progress reporting. -/
def specProgressTrace (n : Nat) : List ℚ :=
  (List.range n).map (fun (i : Nat) => ((i : ℚ) + 1) / (n : ℚ))

/-! ## Helper lemmas -/

theorem getAssoc_setAssoc_self {α : Type} (m : List (String × α)) (k : String)
    (v : α) : getAssoc (setAssoc m k v) k = some v := by
  induction m with
  | nil => simp [setAssoc, getAssoc]
  | cons e rest ih =>
    by_cases h : e.1 = k
    · simp [setAssoc, getAssoc, h]
    · simp only [setAssoc, getAssoc]
      rw [if_neg h]
      simp [getAssoc, h, ih]

theorem getAssoc_setAssoc_ne {α : Type} (m : List (String × α)) (k k' : String)
    (v : α) (h : k' ≠ k) : getAssoc (setAssoc m k v) k' = getAssoc m k' := by
  induction m with
  | nil =>
    simp only [setAssoc, getAssoc]
    rw [if_neg (fun hk => h hk.symm)]
  | cons e rest ih =>
    by_cases he : e.1 = k
    · simp only [setAssoc]
      rw [if_pos he]
      simp only [getAssoc]
      rw [if_neg (he ▸ fun hk => h hk.symm), if_neg (he ▸ fun hk => h hk.symm)]
    · simp only [setAssoc]
      rw [if_neg he]
      simp only [getAssoc]
      by_cases hk : e.1 = k'
      · rw [if_pos hk, if_pos hk]
      · rw [if_neg hk, if_neg hk, ih]

/-! ## C9 — `PlanData` elements never overwrite existing boolean state -/

/-- C9: processing one field-style (`PlanData`) element: when a flag for
its trimmed field-name already exists, `selected` and `insert` are left
unchanged and `text` is backfilled only when the new text is present and
the existing text is empty; when no flag exists, one is created with
`selected=1, insert=0`; flags under every other name are untouched. -/
theorem planData_preserves_booleans (flags : FlagMap) (el : PlanDataNode)
    (name : String) (hname_eq : strTrim (jsOr el.fieldName "") = name)
    (hname : name ≠ "") :
    (∀ f, getAssoc flags name = some f →
      getAssoc (processPlanDataNode flags el) name =
        some (if (optTrim el.textContent).isSome && (truthyStr f.text).isNone
              then { f with text := optTrim el.textContent } else f))
    ∧ (getAssoc flags name = none →
      getAssoc (processPlanDataNode flags el) name =
        some { selected := 1, insert := 0, text := optTrim el.textContent })
    ∧ (∀ other, other ≠ name →
      getAssoc (processPlanDataNode flags el) other = getAssoc flags other) := by
  subst hname_eq
  refine ⟨?_, ?_, ?_⟩
  · intro f hf
    simp only [processPlanDataNode]
    rw [if_neg hname, hf]
    dsimp only
    by_cases hc : ((optTrim el.textContent).isSome &&
        (truthyStr f.text).isNone) = true
    · rw [if_pos hc, if_pos hc, getAssoc_setAssoc_self]
    · rw [if_neg hc, if_neg hc, hf]
  · intro hf
    simp only [processPlanDataNode]
    rw [if_neg hname, hf]
    dsimp only
    rw [getAssoc_setAssoc_self]
  · intro other hother
    simp only [processPlanDataNode]
    rw [if_neg hname]
    cases hf : getAssoc flags (strTrim (jsOr el.fieldName "")) with
    | none =>
      dsimp only
      rw [getAssoc_setAssoc_ne _ _ _ _ hother]
    | some f =>
      dsimp only
      by_cases hc : ((optTrim el.textContent).isSome &&
          (truthyStr f.text).isNone) = true
      · rw [if_pos hc, getAssoc_setAssoc_ne _ _ _ _ hother]
      · rw [if_neg hc]

/-- Witness for C9: a flag with non-empty text keeps its booleans and its
text; a missing flag is created as `selected=1, insert=0`. -/
theorem planData_preserves_booleans_witness :
    getAssoc (processPlanDataNode [("A", ⟨0, 1, some "x"⟩)] ⟨some "A", "y"⟩) "A"
      = some ⟨0, 1, some "x"⟩
    ∧ getAssoc (processPlanDataNode [] ⟨some "A", "y"⟩) "A"
      = some ⟨1, 0, some "y"⟩ := by
  constructor
  · have h := (planData_preserves_booleans [("A", ⟨0, 1, some "x"⟩)]
      ⟨some "A", "y"⟩ "A" (by decide) (by decide)).1 ⟨0, 1, some "x"⟩ (by decide)
    rw [h]; decide
  · have h := (planData_preserves_booleans []
      ⟨some "A", "y"⟩ "A" (by decide) (by decide)).2.1 (by decide)
    rw [h]; decide

/-! ## C2 — single-candidate Yes/No prompts -/

/-- Counterexample to C2 as stated: for a Yes/No-classified prompt whose
single candidate has no flag at all, the Candidate Resolver misses
(returns no value) instead of returning "No". -/
theorem singleYesNo_counterexample :
    looksYesNoPrompt "Is it enabled?" = true
    ∧ getAssoc ([] : FlagMap) "A" = none
    ∧ chooseValueForLinkcsv "A" "Is it enabled?" [] = none
    ∧ ¬ (chooseValueForLinkcsv "A" "Is it enabled?" [] = some "No") := by
  decide

/-- C2 as amended: for a Yes/No-classified prompt with exactly one
candidate linkname, a present flag yields "Yes" when `selected = 1` and
"No" otherwise, while an absent flag is a miss (no value), not "No". -/
theorem singleYesNo_amended (linkcsv promptText : String) (flags : FlagMap)
    (nm : String) (hnames : parseLinkcsv linkcsv = [nm])
    (hyn : looksYesNoPrompt promptText = true) :
    (∀ lf, getAssoc flags nm = some lf →
      chooseValueForLinkcsv linkcsv promptText flags =
        some (if lf.selected == 1 then "Yes" else "No"))
    ∧ (getAssoc flags nm = none →
      chooseValueForLinkcsv linkcsv promptText flags = none) := by
  constructor
  · intro lf hlf
    simp [chooseValueForLinkcsv, hnames, singleAnswer, hlf, hyn]
  · intro h
    simp [chooseValueForLinkcsv, hnames, singleAnswer, h]

/-- Witness for the amended C2 at concrete inputs. -/
theorem singleYesNo_amended_witness :
    chooseValueForLinkcsv "FlagA" "Is it on?" [("FlagA", ⟨1, 0, none⟩)]
      = some "Yes"
    ∧ chooseValueForLinkcsv "FlagA" "Is it on?" [("FlagA", ⟨0, 0, none⟩)]
      = some "No"
    ∧ chooseValueForLinkcsv "FlagA" "Is it on?" [] = none := by
  refine ⟨?_, ?_, ?_⟩
  · have h := (singleYesNo_amended "FlagA" "Is it on?"
      [("FlagA", ⟨1, 0, none⟩)] "FlagA" (by decide) (by decide)).1
      ⟨1, 0, none⟩ (by decide)
    rw [h]; decide
  · have h := (singleYesNo_amended "FlagA" "Is it on?"
      [("FlagA", ⟨0, 0, none⟩)] "FlagA" (by decide) (by decide)).1
      ⟨0, 0, none⟩ (by decide)
    rw [h]; decide
  · exact (singleYesNo_amended "FlagA" "Is it on?" [] "FlagA"
      (by decide) (by decide)).2 (by decide)

/-! ## C10 — normalized prompt-text lookup in the enhanced orchestrator -/

/-- C10: when the exact prompt text has no options entry but its
normalized form does, the enhanced Options Matcher stage (line 306) uses
the options string stored under the normalized form, while the vesting
expansion's lookup (line 297) sees only the exact text and gets the empty
string. -/
theorem normalized_options_lookup (opts : OptsMap) (promptText s : String)
    (hexact : lookupOpts opts promptText = none)
    (hnorm : lookupOpts opts (normalizeText promptText) = some s) :
    matcherOptionsFor opts promptText = s
    ∧ vestingOptionsFor opts promptText = "" := by
  constructor
  · by_cases hs : s = "" <;>
      simp [matcherOptionsFor, hexact, hnorm, jsOr, hs]
  · simp [vestingOptionsFor, hexact, jsOr]

/-- Witness for C10: a prompt with doubled spaces and a trailing colon
finds the options stored under its normalized text, and the vesting
lookup does not. -/
theorem normalized_options_lookup_witness :
    matcherOptionsFor [("What is x", "A\nB")] "  What   is x: " = "A\nB"
    ∧ vestingOptionsFor [("What is x", "A\nB")] "  What   is x: " = "" := by
  exact normalized_options_lookup [("What is x", "A\nB")] "  What   is x: "
    "A\nB" (by decide) (by decide)

/-! ## C5 — multi-candidate scan order and miss behaviour -/

/-- C5: for a prompt with two or more candidate linknames, the Candidate
Resolver's answer is determined by the first candidate (in given order)
whose flag has `selected = 1` — formally, the result is `multiAnswer` of
that candidate, and `firstSelected` is `find?` over the candidates in
order — and when no candidate is selected the resolver misses and
produces no value at all. -/
theorem multi_first_selected_determines (linkcsv promptText : String)
    (flags : FlagMap) (nm1 nm2 : String) (rest : List String)
    (hnames : parseLinkcsv linkcsv = nm1 :: nm2 :: rest) :
    (firstSelected (nm1 :: nm2 :: rest) flags = none →
      chooseValueForLinkcsv linkcsv promptText flags = none)
    ∧ (∀ c, firstSelected (nm1 :: nm2 :: rest) flags = some c →
      chooseValueForLinkcsv linkcsv promptText flags =
        multiAnswer c promptText flags)
    ∧ (∀ c, firstSelected (nm1 :: nm2 :: rest) flags = some c →
      isSelected flags c = true ∧
        ∃ pre post, nm1 :: nm2 :: rest = pre ++ c :: post ∧
          ∀ x ∈ pre, isSelected flags x = false) := by
  refine ⟨?_, ?_, ?_⟩
  · intro h
    simp [chooseValueForLinkcsv, hnames, h]
  · intro c hc
    simp [chooseValueForLinkcsv, hnames, hc]
  · intro c hc
    have h := List.find?_eq_some.mp hc
    refine ⟨h.1, ?_⟩
    obtain ⟨as, bs, heq, hall⟩ := h.2
    exact ⟨as, bs, heq, fun x hx => by simpa using hall x hx⟩

/-- Witness for C5: with no candidate selected the resolver misses; with
the second candidate selected it is the one that answers. -/
theorem multi_first_selected_determines_witness :
    chooseValueForLinkcsv "OptA,OptB" "Describe it" [] = none
    ∧ chooseValueForLinkcsv "OptA,OptB" "Describe it"
        [("OptB", ⟨1, 0, some "Custom Value"⟩)] =
      multiAnswer "OptB" "Describe it" [("OptB", ⟨1, 0, some "Custom Value"⟩)] := by
  constructor
  · exact (multi_first_selected_determines "OptA,OptB" "Describe it" []
      "OptA" "OptB" [] (by decide)).1 (by decide)
  · exact (multi_first_selected_determines "OptA,OptB" "Describe it"
      [("OptB", ⟨1, 0, some "Custom Value"⟩)] "OptA" "OptB" [] (by decide)).2.1
      "OptB" (by decide)

/-! ## C4 — Yes/No inference for multi-candidate prompts -/

/-- C4: for a Yes/No-classified prompt with two or more candidates and a
first selected candidate `c`, the answer is "Yes" when `c`'s text
contains "yes" (case-insensitively), "No" when it does not contain "yes"
but contains "no", and defaults to "Yes" when neither substring
occurs. -/
theorem multi_yesno_substring (linkcsv promptText : String)
    (flags : FlagMap) (nm1 nm2 : String) (rest : List String) (c : String)
    (hnames : parseLinkcsv linkcsv = nm1 :: nm2 :: rest)
    (hyn : looksYesNoPrompt promptText = true)
    (hc : firstSelected (nm1 :: nm2 :: rest) flags = some c) :
    (containsCI "yes" c = true →
      chooseValueForLinkcsv linkcsv promptText flags = some "Yes")
    ∧ (containsCI "yes" c = false → containsCI "no" c = true →
      chooseValueForLinkcsv linkcsv promptText flags = some "No")
    ∧ (containsCI "yes" c = false → containsCI "no" c = false →
      chooseValueForLinkcsv linkcsv promptText flags = some "Yes") := by
  refine ⟨?_, ?_, ?_⟩
  · intro hy
    simp [chooseValueForLinkcsv, hnames, hc, multiAnswer, hyn, hy]
  · intro hy hn
    simp [chooseValueForLinkcsv, hnames, hc, multiAnswer, hyn, hy, hn]
  · intro hy hn
    simp [chooseValueForLinkcsv, hnames, hc, multiAnswer, hyn, hy, hn]

/-- Witness for C4: a chosen name containing "no", one containing "yes",
and one containing neither. -/
theorem multi_yesno_substring_witness :
    chooseValueForLinkcsv "YesOpt,NoOpt" "Is it good?"
      [("NoOpt", ⟨1, 0, none⟩)] = some "No"
    ∧ chooseValueForLinkcsv "YesOpt,NoOpt" "Is it good?"
      [("YesOpt", ⟨1, 0, none⟩)] = some "Yes"
    ∧ chooseValueForLinkcsv "OptA,OptB" "Is it good?"
      [("OptB", ⟨1, 0, none⟩)] = some "Yes" := by
  refine ⟨?_, ?_, ?_⟩
  · exact (multi_yesno_substring "YesOpt,NoOpt" "Is it good?"
      [("NoOpt", ⟨1, 0, none⟩)] "YesOpt" "NoOpt" [] "NoOpt"
      (by decide) (by decide) (by decide)).2.1 (by decide) (by decide)
  · exact (multi_yesno_substring "YesOpt,NoOpt" "Is it good?"
      [("YesOpt", ⟨1, 0, none⟩)] "YesOpt" "NoOpt" [] "YesOpt"
      (by decide) (by decide) (by decide)).1 (by decide)
  · exact (multi_yesno_substring "OptA,OptB" "Is it good?"
      [("OptB", ⟨1, 0, none⟩)] "OptA" "OptB" [] "OptB"
      (by decide) (by decide) (by decide)).2.2 (by decide) (by decide)

/-! ## C6 — Options Matcher: strictly-highest score, first tie wins -/

theorem maxScoreOf_le (score : String → Nat) (l : List String) (o : String)
    (ho : o ∈ l) : score o ≤ maxScoreOf score l := by
  induction l with
  | nil => cases ho
  | cons a rest ih =>
    rcases List.mem_cons.mp ho with h | h
    · subst h; exact Nat.le_max_left _ _
    · exact le_trans (ih h) (Nat.le_max_right _ _)

theorem maxScoreOf_eq_zero (score : String → Nat) (l : List String)
    (h : ∀ o ∈ l, score o = 0) : maxScoreOf score l = 0 := by
  induction l with
  | nil => rfl
  | cons a rest ih =>
    simp only [maxScoreOf]
    rw [h a (by simp), ih (fun o ho => h o (List.mem_cons_of_mem _ ho))]
    omega

theorem find?_congr_on {α : Type} (l : List α) (p q : α → Bool)
    (h : ∀ x ∈ l, p x = q x) : l.find? p = l.find? q := by
  induction l with
  | nil => rfl
  | cons a rest ih =>
    simp only [List.find?_cons]
    rw [h a (by simp)]
    cases q a with
    | true => rfl
    | false => exact ih (fun x hx => h x (List.mem_cons_of_mem _ hx))

theorem bestLoop_fst (score : String → Nat) (l : List String) :
    ∀ b s, (bestLoop score l (b, s)).1 =
      if s < maxScoreOf score l then
        l.find? (fun o => decide (maxScoreOf score l ≤ score o))
      else b := by
  induction l with
  | nil =>
    intro b s
    simp [bestLoop, maxScoreOf]
  | cons o rest ih =>
    intro b s
    simp only [bestLoop, maxScoreOf]
    by_cases hso : s < score o
    · rw [if_pos hso, ih (some o) (score o)]
      by_cases hM : score o < maxScoreOf score rest
      · have hMax : score o ⊔ maxScoreOf score rest
            = maxScoreOf score rest := Nat.max_eq_right (le_of_lt hM)
        rw [if_pos hM]
        simp only [hMax]
        rw [if_pos (lt_trans hso hM), List.find?_cons]
        have hpo : decide (maxScoreOf score rest ≤ score o) = false := by
          simpa using hM
        rw [hpo]
      · have hle : maxScoreOf score rest ≤ score o := Nat.le_of_not_lt hM
        have hMax : score o ⊔ maxScoreOf score rest = score o :=
          Nat.max_eq_left hle
        rw [if_neg hM]
        simp only [hMax]
        rw [if_pos hso, List.find?_cons]
        have hpo : decide (score o ≤ score o) = true := by simp
        rw [hpo]
    · have hos : score o ≤ s := Nat.le_of_not_lt hso
      rw [if_neg hso, ih b s]
      by_cases hsr : s < maxScoreOf score rest
      · have hMax : score o ⊔ maxScoreOf score rest
            = maxScoreOf score rest :=
          Nat.max_eq_right (le_trans hos (le_of_lt hsr))
        rw [if_pos hsr]
        simp only [hMax]
        rw [if_pos hsr, List.find?_cons]
        have hpo : decide (maxScoreOf score rest ≤ score o) = false := by
          simpa using Nat.lt_of_le_of_lt hos hsr
        rw [hpo]
      · have hsr' : maxScoreOf score rest ≤ s := Nat.le_of_not_lt hsr
        have hMs : ¬ s < score o ⊔ maxScoreOf score rest := by
          rw [Nat.not_lt, Nat.max_le]
          exact ⟨hos, hsr'⟩
        rw [if_neg hsr, if_neg hMs]

/-- C6: the Options Matcher is the deterministic function that returns
the option line with the strictly highest keyword-overlap score — the
first such line in list order when several tie at the maximum — and
misses exactly when no line scores above zero.  (Determinism and
idempotence over identical `(selected linknames, options text)` inputs is
immediate: `bestMatchFromOptions` is a pure function of these two
arguments.) -/
theorem options_matcher_characterization (selectedNames : List String)
    (optionsAllowed : String) :
    (maxScoreOf (optScore (selectedKeywords selectedNames))
        (normalizeOptionsAllowed optionsAllowed) = 0 →
      bestMatchFromOptions selectedNames optionsAllowed = none)
    ∧ (0 < maxScoreOf (optScore (selectedKeywords selectedNames))
        (normalizeOptionsAllowed optionsAllowed) →
      bestMatchFromOptions selectedNames optionsAllowed =
        (normalizeOptionsAllowed optionsAllowed).find? (fun o =>
          optScore (selectedKeywords selectedNames) o ==
            maxScoreOf (optScore (selectedKeywords selectedNames))
              (normalizeOptionsAllowed optionsAllowed))) := by
  by_cases hguard : (selectedNames = [] || (optionsAllowed = "" : Bool)) = true
  · constructor
    · intro _
      simp only [bestMatchFromOptions]
      rw [if_pos hguard]
    · intro hpos
      exfalso
      rcases Bool.or_eq_true_iff.mp hguard with h | h
      · have hsel : selectedNames = [] := by simpa using h
        have hz : maxScoreOf (optScore (selectedKeywords selectedNames))
            (normalizeOptionsAllowed optionsAllowed) = 0 := by
          apply maxScoreOf_eq_zero
          intro o _
          rw [hsel]
          rfl
        omega
      · have hoa : optionsAllowed = "" := by simpa using h
        rw [hoa] at hpos
        have hempty : normalizeOptionsAllowed "" = [] := by decide
        rw [hempty] at hpos
        simp [maxScoreOf] at hpos
  · constructor
    · intro hz
      simp only [bestMatchFromOptions]
      rw [if_neg hguard, bestLoop_fst, hz]
      simp
    · intro hpos
      simp only [bestMatchFromOptions]
      rw [if_neg hguard, bestLoop_fst, if_pos hpos]
      apply find?_congr_on
      intro x hx
      have hle := maxScoreOf_le (optScore (selectedKeywords selectedNames))
        (normalizeOptionsAllowed optionsAllowed) x hx
      by_cases he : optScore (selectedKeywords selectedNames) x =
          maxScoreOf (optScore (selectedKeywords selectedNames))
            (normalizeOptionsAllowed optionsAllowed)
      · simp [he]
      · have hlt : ¬ (maxScoreOf (optScore (selectedKeywords selectedNames))
            (normalizeOptionsAllowed optionsAllowed) ≤
              optScore (selectedKeywords selectedNames) x) := by
          omega
        simp [hlt, he]

/-- Witness for C6 at a concrete scoring situation with a positive
maximum. -/
theorem options_matcher_characterization_witness :
    0 < maxScoreOf (optScore (selectedKeywords ["Match50Percent"]))
        (normalizeOptionsAllowed "50% match\nsomething else")
    ∧ bestMatchFromOptions ["Match50Percent"] "50% match\nsomething else" =
      (normalizeOptionsAllowed "50% match\nsomething else").find? (fun o =>
        optScore (selectedKeywords ["Match50Percent"]) o ==
          maxScoreOf (optScore (selectedKeywords ["Match50Percent"]))
            (normalizeOptionsAllowed "50% match\nsomething else")) := by
  refine ⟨by decide, ?_⟩
  exact (options_matcher_characterization ["Match50Percent"]
    "50% match\nsomething else").2 (by decide)

/-! ## C7 — Vesting Resolver priority and invocation gating -/

theorem firstSelectedLabel_eq_none (flags : FlagMap)
    (pairs : List (String × String))
    (h : ∀ pr ∈ pairs, isSelected flags pr.1 = false) :
    firstSelectedLabel flags pairs = none := by
  induction pairs with
  | nil => rfl
  | cons a rest ih =>
    simp only [firstSelectedLabel, List.findSome?_cons]
    rw [h a (by simp)]
    simp only [Bool.false_eq_true, if_false]
    exact ih (fun pr hpr => h pr (List.mem_cons_of_mem _ hpr))

theorem firstSelectedLabel_of_exists (flags : FlagMap)
    (pairs : List (String × String))
    (h : ∃ pr ∈ pairs, isSelected flags pr.1 = true) :
    ∃ l ∈ pairs.map Prod.snd, firstSelectedLabel flags pairs = some l := by
  induction pairs with
  | nil => simp at h
  | cons a rest ih =>
    simp only [firstSelectedLabel, List.findSome?_cons]
    by_cases ha : isSelected flags a.1 = true
    · exact ⟨a.2, by simp, by rw [ha]; simp⟩
    · have hrest : ∃ pr ∈ rest, isSelected flags pr.1 = true := by
        rcases h with ⟨pr, hmem, hsel⟩
        rcases List.mem_cons.mp hmem with he | he
        · exact absurd (he ▸ hsel) ha
        · exact ⟨pr, he, hsel⟩
      rcases ih hrest with ⟨l, hl, heq⟩
      refine ⟨l, by simp [hl], ?_⟩
      rw [Bool.eq_false_iff.mpr ha]
      simpa [firstSelectedLabel] using heq

/-- C7: the Vesting Schedule Resolver resolves by table priority — if any
graded-table linkname is selected the result is a graded label (even when
cliff or immediate linknames are simultaneously selected), and if no
graded linkname but some cliff linkname is selected the result is a cliff
label; in the enhanced orchestrator the vesting stage is the identity
(never consulted) unless the prompt is vesting-classified ("vesting
schedule" without "describe") and the Candidate Resolver missed, and
`enhancedPromptValue` is exactly the chain resolver → vesting stage →
options stage. -/
theorem vesting_priority_and_gating (flags : FlagMap) (quick : Option String)
    (p : Prompt) (opts : OptsMap) :
    ((∃ pr ∈ gradedPairs, isSelected flags pr.1 = true) →
      ∃ l ∈ gradedPairs.map Prod.snd,
        deriveVestingShortLabel flags quick = some l)
    ∧ ((¬ ∃ pr ∈ gradedPairs, isSelected flags pr.1 = true) →
      (∃ pr ∈ cliffPairs, isSelected flags pr.1 = true) →
      ∃ l ∈ cliffPairs.map Prod.snd,
        deriveVestingShortLabel flags quick = some l)
    ∧ (∀ v0, v0 = chooseValueForLinkcsv (linkcsvOf p) p.prompt flags →
      (v0 ≠ none ∨ isVestingSchedulePrompt p.prompt = false) →
      vestingStage p.prompt p.quick opts flags v0 = v0)
    ∧ enhancedPromptValue p flags opts =
      optionsStage p (linkcsvOf p) opts flags
        (vestingStage p.prompt p.quick opts flags
          (chooseValueForLinkcsv (linkcsvOf p) p.prompt flags)) := by
  refine ⟨?_, ?_, ?_, rfl⟩
  · intro h
    rcases firstSelectedLabel_of_exists flags gradedPairs h with ⟨l, hl, heq⟩
    exact ⟨l, hl, by simp only [deriveVestingShortLabel]; rw [heq]⟩
  · intro hng hc
    have hnone : firstSelectedLabel flags gradedPairs = none := by
      apply firstSelectedLabel_eq_none
      intro pr hpr
      cases hb : isSelected flags pr.1 with
      | false => rfl
      | true => exact absurd ⟨pr, hpr, hb⟩ hng
    rcases firstSelectedLabel_of_exists flags cliffPairs hc with ⟨l, hl, heq⟩
    exact ⟨l, hl, by simp only [deriveVestingShortLabel]; rw [hnone, heq]⟩
  · intro v0 hv0 hgate
    simp only [vestingStage]
    rcases hgate with h | h
    · have : v0.isNone = false := by
        cases v0 with
        | none => exact absurd rfl h
        | some _ => rfl
      rw [this]
      simp
    · rw [h]
      simp

/-- Witness for C7: graded beats cliff, cliff beats immediate, and a
non-vesting prompt leaves the vesting stage inert. -/
theorem vesting_priority_and_gating_witness :
    (∃ l ∈ gradedPairs.map Prod.snd,
      deriveVestingShortLabel
        [("Vest5YRGradeMatch", ⟨1, 0, none⟩), ("2YRCliffNEContr", ⟨1, 0, none⟩)]
        none = some l)
    ∧ (∃ l ∈ cliffPairs.map Prod.snd,
      deriveVestingShortLabel
        [("2YRCliffNEContr", ⟨1, 0, none⟩), ("VestNAQACA", ⟨1, 0, none⟩)]
        none = some l)
    ∧ vestingStage "Hello" none [] []
        (chooseValueForLinkcsv (linkcsvOf ⟨"k", "Hello", some "A", none⟩)
          "Hello" []) =
      chooseValueForLinkcsv (linkcsvOf ⟨"k", "Hello", some "A", none⟩)
        "Hello" [] := by
  refine ⟨?_, ?_, ?_⟩
  · exact (vesting_priority_and_gating
      [("Vest5YRGradeMatch", ⟨1, 0, none⟩), ("2YRCliffNEContr", ⟨1, 0, none⟩)]
      none ⟨"k", "x", none, none⟩ []).1
      ⟨("Vest5YRGradeMatch", "1-20"), by decide, by decide⟩
  · exact (vesting_priority_and_gating
      [("2YRCliffNEContr", ⟨1, 0, none⟩), ("VestNAQACA", ⟨1, 0, none⟩)]
      none ⟨"k", "x", none, none⟩ []).2.1 (by decide)
      ⟨("2YRCliffNEContr", "Cliff 2"), by decide, by decide⟩
  · exact (vesting_priority_and_gating [] none
      ⟨"k", "Hello", some "A", none⟩ []).2.2.1 _ rfl (Or.inr (by decide))

/-! ## C3 — duplicate flag-style elements: which occurrence wins -/

theorem linkFold_get (l : List LinkNode) (n : String) (hn : n ≠ "") :
    ∀ init : FlagMap,
      getAssoc (l.foldl processLinkNode init) n =
        ((l.reverse.find? (fun e => nameOfLink e == n)).map flagOfLink).or
          (getAssoc init n) := by
  induction l with
  | nil =>
    intro init
    simp
  | cons el rest ih =>
    intro init
    simp only [List.foldl_cons, List.reverse_cons, List.find?_append]
    rw [ih (processLinkNode init el)]
    cases hfr : rest.reverse.find? (fun e => nameOfLink e == n) with
    | some e => simp
    | none =>
      simp only [Option.map, Option.or]
      by_cases hp : nameOfLink el = n
      · have hpel : (fun e => nameOfLink e == n) el = true := by
          simp [hp]
        have hfind : List.find? (fun e => nameOfLink e == n) [el] = some el := by
          simp [List.find?_cons, hpel]
        rw [hfind]
        simp only [processLinkNode, Option.map, Option.or]
        rw [hp, if_neg hn, getAssoc_setAssoc_self]
      · have hpel : (fun e => nameOfLink e == n) el = false := by
          simp [hp]
        have hfind : List.find? (fun e => nameOfLink e == n) [el] = none := by
          simp [List.find?_cons, hpel]
        rw [hfind]
        simp only [processLinkNode, Option.map, Option.or]
        by_cases hblank : nameOfLink el = ""
        · rw [if_pos hblank]
        · rw [if_neg hblank,
            getAssoc_setAssoc_ne _ _ _ _ (fun h => hp h.symm)]

theorem processPlanDataNode_booleans (m : FlagMap) (el : PlanDataNode)
    (n : String) (f : LinkFlag) (hf : getAssoc m n = some f) :
    ∃ f2, getAssoc (processPlanDataNode m el) n = some f2
      ∧ f2.selected = f.selected ∧ f2.insert = f.insert := by
  simp only [processPlanDataNode]
  by_cases hname : strTrim (jsOr el.fieldName "") = ""
  · rw [if_pos hname]
    exact ⟨f, hf, rfl, rfl⟩
  · rw [if_neg hname]
    by_cases heq : strTrim (jsOr el.fieldName "") = n
    · rw [heq, hf]
      dsimp only
      by_cases hc : ((optTrim el.textContent).isSome &&
          (truthyStr f.text).isNone) = true
      · rw [if_pos hc]
        exact ⟨_, getAssoc_setAssoc_self _ _ _, rfl, rfl⟩
      · rw [if_neg hc]
        exact ⟨f, hf, rfl, rfl⟩
    · cases hg : getAssoc m (strTrim (jsOr el.fieldName "")) with
      | none =>
        dsimp only
        refine ⟨f, ?_, rfl, rfl⟩
        rw [getAssoc_setAssoc_ne _ _ _ _ (fun h => heq h.symm)]
        exact hf
      | some g =>
        dsimp only
        by_cases hc : ((optTrim el.textContent).isSome &&
            (truthyStr g.text).isNone) = true
        · rw [if_pos hc]
          refine ⟨f, ?_, rfl, rfl⟩
          rw [getAssoc_setAssoc_ne _ _ _ _ (fun h => heq h.symm)]
          exact hf
        · rw [if_neg hc]
          exact ⟨f, hf, rfl, rfl⟩

theorem planFold_booleans (l : List PlanDataNode) :
    ∀ (m : FlagMap) (n : String) (f : LinkFlag), getAssoc m n = some f →
      ∃ f2, getAssoc (l.foldl processPlanDataNode m) n = some f2
        ∧ f2.selected = f.selected ∧ f2.insert = f.insert := by
  induction l with
  | nil =>
    intro m n f hf
    exact ⟨f, hf, rfl, rfl⟩
  | cons el rest ih =>
    intro m n f hf
    rcases processPlanDataNode_booleans m el n f hf with ⟨f1, hf1, hs1, hi1⟩
    rcases ih (processPlanDataNode m el) n f1 hf1 with ⟨f2, hf2, hs2, hi2⟩
    exact ⟨f2, hf2, hs2.trans hs1, hi2.trans hi1⟩

theorem mem_keys_setAssoc {α : Type} (m : List (String × α)) (k : String)
    (v : α) (x : String) (hx : x ∈ (setAssoc m k v).map Prod.fst) :
    x ∈ m.map Prod.fst ∨ x = k := by
  induction m with
  | nil =>
    right
    simp only [setAssoc, List.map_cons, List.map_nil] at hx
    rcases List.mem_cons.mp hx with h | h
    · exact h
    · cases h
  | cons e rest ih =>
    by_cases he : e.1 = k
    · simp only [setAssoc, if_pos he, List.map_cons] at hx
      rcases List.mem_cons.mp hx with h | h
      · exact Or.inl (List.mem_cons.mpr (Or.inl h))
      · exact Or.inl (List.mem_cons.mpr (Or.inr h))
    · simp only [setAssoc, if_neg he, List.map_cons] at hx
      rcases List.mem_cons.mp hx with h | h
      · exact Or.inl (List.mem_cons.mpr (Or.inl h))
      · rcases ih h with h2 | h2
        · exact Or.inl (List.mem_cons.mpr (Or.inr h2))
        · exact Or.inr h2

theorem nodup_keys_setAssoc {α : Type} (m : List (String × α)) (k : String)
    (v : α) (h : (m.map Prod.fst).Nodup) :
    ((setAssoc m k v).map Prod.fst).Nodup := by
  induction m with
  | nil => simp [setAssoc]
  | cons e rest ih =>
    simp only [List.map_cons, List.nodup_cons] at h
    by_cases he : e.1 = k
    · simp only [setAssoc, if_pos he, List.map_cons, List.nodup_cons]
      exact h
    · simp only [setAssoc, if_neg he, List.map_cons, List.nodup_cons]
      refine ⟨?_, ih h.2⟩
      intro hmem
      rcases mem_keys_setAssoc rest k v e.1 hmem with h2 | h2
      · exact h.1 h2
      · exact he h2

theorem nodup_keys_foldl {β : Type} (step : FlagMap → β → FlagMap)
    (hstep : ∀ m e, (m.map Prod.fst).Nodup → ((step m e).map Prod.fst).Nodup)
    (l : List β) : ∀ m : FlagMap, (m.map Prod.fst).Nodup →
      ((l.foldl step m).map Prod.fst).Nodup := by
  induction l with
  | nil => intro m h; exact h
  | cons e rest ih => intro m h; exact ih (step m e) (hstep m e h)

theorem processLinkNode_keys_nodup (m : FlagMap) (el : LinkNode)
    (h : (m.map Prod.fst).Nodup) :
    ((processLinkNode m el).map Prod.fst).Nodup := by
  simp only [processLinkNode]
  by_cases hb : nameOfLink el = ""
  · rw [if_pos hb]; exact h
  · rw [if_neg hb]; exact nodup_keys_setAssoc _ _ _ h

theorem processPlanDataNode_keys_nodup (m : FlagMap) (el : PlanDataNode)
    (h : (m.map Prod.fst).Nodup) :
    ((processPlanDataNode m el).map Prod.fst).Nodup := by
  simp only [processPlanDataNode]
  by_cases hb : strTrim (jsOr el.fieldName "") = ""
  · rw [if_pos hb]; exact h
  · rw [if_neg hb]
    cases hg : getAssoc m (strTrim (jsOr el.fieldName "")) with
    | none => exact nodup_keys_setAssoc _ _ _ h
    | some g =>
      dsimp only
      by_cases hc : ((optTrim el.textContent).isSome &&
          (truthyStr g.text).isNone) = true
      · rw [if_pos hc]; exact nodup_keys_setAssoc _ _ _ h
      · rw [if_neg hc]; exact h

theorem parseXmlToFlags_keys_nodup (px : ParsedXml) :
    ((parseXmlToFlags px).map Prod.fst).Nodup := by
  apply nodup_keys_foldl processPlanDataNode processPlanDataNode_keys_nodup
  apply nodup_keys_foldl processLinkNode processLinkNode_keys_nodup
  simp

/-- Counterexample to C3 as stated: two flag-style `LinkName` elements
named "A", the first with `selected="1"` and the second with
`selected="0"`, register a flag with `selected = 0` — the last
occurrence, not the first, determines the boolean state. -/
theorem linkName_duplicate_counterexample :
    getAssoc (parseXmlToFlags ⟨[⟨some "A", some "1", some "0", ""⟩,
        ⟨some "A", some "0", some "0", ""⟩], []⟩) "A" = some ⟨0, 0, none⟩
    ∧ ¬ (getAssoc (parseXmlToFlags ⟨[⟨some "A", some "1", some "0", ""⟩,
        ⟨some "A", some "0", some "0", ""⟩], []⟩) "A" = some ⟨1, 0, none⟩) := by
  decide

/-- C3 as amended: the Flag Extractor registers exactly one Flag per
distinct name (the key list of the flag table is duplicate-free), and the
LAST flag-style occurrence of a name in document order determines the
registered `selected`/`insert` boolean state (record assignment
overwrites, and field-style elements never change the booleans). -/
theorem linkName_last_occurrence_wins (px : ParsedXml) (n : String)
    (hn : n ≠ "") (el : LinkNode)
    (hfind : px.linkNames.reverse.find? (fun e => nameOfLink e == n)
      = some el) :
    (∃ f, getAssoc (parseXmlToFlags px) n = some f
      ∧ f.selected = (flagOfLink el).selected
      ∧ f.insert = (flagOfLink el).insert)
    ∧ ((parseXmlToFlags px).map Prod.fst).Nodup := by
  constructor
  · have hlink := linkFold_get px.linkNames n hn []
    rw [hfind] at hlink
    simp only [Option.map, Option.or] at hlink
    exact planFold_booleans px.planDatas _ n (flagOfLink el) hlink
  · exact parseXmlToFlags_keys_nodup px

/-- Witness for the amended C3 at the duplicate-"A" document: the
registered flag carries the second occurrence's `selected=0`. -/
theorem linkName_last_occurrence_wins_witness :
    (∃ f, getAssoc (parseXmlToFlags ⟨[⟨some "A", some "1", some "0", ""⟩,
        ⟨some "A", some "0", some "1", ""⟩], []⟩) "A" = some f
      ∧ f.selected = 0 ∧ f.insert = 1)
    ∧ ((parseXmlToFlags ⟨[⟨some "A", some "1", some "0", ""⟩,
        ⟨some "A", some "0", some "1", ""⟩], []⟩).map Prod.fst).Nodup := by
  have h := linkName_last_occurrence_wins
    ⟨[⟨some "A", some "1", some "0", ""⟩, ⟨some "A", some "0", some "1", ""⟩],
      []⟩ "A" (by decide) ⟨some "A", some "0", some "1", ""⟩ (by decide)
  rcases h with ⟨⟨f, hf, hs, hi⟩, hnd⟩
  refine ⟨⟨f, hf, ?_, ?_⟩, hnd⟩
  · rw [hs]; decide
  · rw [hi]; decide

/-! ## C1 / C8 — orchestrator: error isolation and progress reporting -/

/-- Row a document contributes: its computed row on success, the error
row when processing raised. -/
def rowValueOf (rowOf : ParsedXml → List (String × String))
    (errRow : List (String × String)) (doc : XmlDoc) :
    List (String × String) :=
  match tryRow rowOf doc with
  | .ok r => r
  | .error _ => errRow

theorem runBatch_fst (rowOf : ParsedXml → List (String × String))
    (errRow : List (String × String)) (files : List (String × XmlDoc)) :
    ∀ acc p t, (runBatch rowOf errRow files acc p t).1 =
      files.foldl (fun r pair =>
        setAssoc r pair.1 (rowValueOf rowOf errRow pair.2)) acc := by
  induction files with
  | nil =>
    intro acc p t
    rfl
  | cons hd tl ih =>
    obtain ⟨name, doc⟩ := hd
    intro acc p t
    simp only [runBatch, List.foldl_cons]
    rw [ih]
    rfl

theorem runBatch_snd (rowOf : ParsedXml → List (String × String))
    (errRow : List (String × String)) (files : List (String × XmlDoc)) :
    ∀ acc p t, (runBatch rowOf errRow files acc p t).2 =
      (List.range files.length).map
        (fun i => (((p + i + 1 : ℕ) : ℚ)) / (t : ℚ)) := by
  induction files with
  | nil =>
    intro acc p t
    rfl
  | cons hd tl ih =>
    obtain ⟨name, doc⟩ := hd
    intro acc p t
    simp only [runBatch, List.length_cons, List.range_succ_eq_map,
      List.map_cons, List.map_map]
    rw [ih]
    congr 1
    · push_cast
      ring_nf
    · congr 1
      funext i
      simp only [Function.comp]
      congr 1
      push_cast
      ring_nf

theorem getAssoc_foldl_not_mem (g : XmlDoc → List (String × String))
    (files : List (String × XmlDoc)) :
    ∀ acc nm, nm ∉ files.map Prod.fst →
      getAssoc (files.foldl (fun r pair => setAssoc r pair.1 (g pair.2)) acc)
        nm = getAssoc acc nm := by
  induction files with
  | nil =>
    intro acc nm _
    rfl
  | cons hd tl ih =>
    intro acc nm hnm
    simp only [List.map_cons, List.mem_cons, not_or] at hnm
    simp only [List.foldl_cons]
    rw [ih _ nm hnm.2, getAssoc_setAssoc_ne _ _ _ _ hnm.1]

theorem getAssoc_foldl_mem (g : XmlDoc → List (String × String))
    (files : List (String × XmlDoc)) :
    ∀ acc nm doc, (files.map Prod.fst).Nodup → (nm, doc) ∈ files →
      getAssoc (files.foldl (fun r pair => setAssoc r pair.1 (g pair.2)) acc)
        nm = some (g doc) := by
  induction files with
  | nil =>
    intro acc nm doc _ hmem
    cases hmem
  | cons hd tl ih =>
    intro acc nm doc hnodup hmem
    simp only [List.map_cons, List.nodup_cons] at hnodup
    simp only [List.foldl_cons]
    rcases List.mem_cons.mp hmem with h | h
    · have hnm : nm = hd.1 := by rw [← h]
      have hdoc : doc = hd.2 := by rw [← h]
      subst hnm
      rw [getAssoc_foldl_not_mem g tl _ _ hnodup.1,
        getAssoc_setAssoc_self, hdoc]
    · exact ih _ nm doc hnodup.2 h

theorem errorRow_fold (prompts : List Prompt) :
    ∀ acc k, getAssoc (prompts.foldl
        (fun row p => setAssoc row p.key "Processing Error") acc) k =
      if k ∈ prompts.map Prompt.key then some "Processing Error"
      else getAssoc acc k := by
  induction prompts with
  | nil =>
    intro acc k
    simp
  | cons p rest ih =>
    intro acc k
    simp only [List.foldl_cons]
    rw [ih]
    by_cases hr : k ∈ rest.map Prompt.key
    · rw [if_pos hr, if_pos (by simp [hr])]
    · rw [if_neg hr]
      by_cases hk : k = p.key
      · rw [hk, getAssoc_setAssoc_self, if_pos (by simp)]
      · rw [getAssoc_setAssoc_ne _ _ _ _ hk,
          if_neg (by simp [hk, hr])]

/-- C1: a document whose XML fails to parse yields the error row — every
prompt's key maps to the sentinel "Processing Error" — while the run
continues: every well-formed document in the same run still receives
exactly the row it would normally receive. -/
theorem error_isolation (prompts : List Prompt)
    (files : List (String × XmlDoc))
    (hnodup : (files.map Prod.fst).Nodup) (nm : String)
    (hmem : (nm, XmlDoc.malformed) ∈ files) :
    getAssoc (fillDataFromXmls prompts files).1 nm = some (errorRow prompts)
    ∧ (∀ p ∈ prompts,
        getAssoc (errorRow prompts) p.key = some "Processing Error")
    ∧ (∀ nm2 px, (nm2, XmlDoc.parsed px) ∈ files →
        getAssoc (fillDataFromXmls prompts files).1 nm2 =
          some (basicRow prompts (parseXmlToFlags px))) := by
  have hfst := runBatch_fst (fun px => basicRow prompts (parseXmlToFlags px))
    (errorRow prompts) files [] 0 files.length
  refine ⟨?_, ?_, ?_⟩
  · simp only [fillDataFromXmls]
    rw [hfst, getAssoc_foldl_mem _ files [] nm XmlDoc.malformed hnodup hmem]
    rfl
  · intro p hp
    simp only [errorRow]
    rw [errorRow_fold prompts [] p.key,
      if_pos (List.mem_map_of_mem Prompt.key hp)]
  · intro nm2 px hmem2
    simp only [fillDataFromXmls]
    rw [hfst,
      getAssoc_foldl_mem _ files [] nm2 (XmlDoc.parsed px) hnodup hmem2]
    rfl

/-- Witness for C1: a two-document run with one malformed document. -/
theorem error_isolation_witness :
    getAssoc (fillDataFromXmls [⟨"k1", "Is it on?", some "A", none⟩]
        [("bad.xml", XmlDoc.malformed),
         ("good.xml", XmlDoc.parsed ⟨[⟨some "A", some "1", none, ""⟩], []⟩)]).1
      "bad.xml" = some (errorRow [⟨"k1", "Is it on?", some "A", none⟩])
    ∧ (∀ p ∈ [(⟨"k1", "Is it on?", some "A", none⟩ : Prompt)],
        getAssoc (errorRow [⟨"k1", "Is it on?", some "A", none⟩]) p.key =
          some "Processing Error")
    ∧ (∀ nm2 px, (nm2, XmlDoc.parsed px) ∈
        [("bad.xml", XmlDoc.malformed),
         ("good.xml", XmlDoc.parsed ⟨[⟨some "A", some "1", none, ""⟩], []⟩)] →
        getAssoc (fillDataFromXmls [⟨"k1", "Is it on?", some "A", none⟩]
          [("bad.xml", XmlDoc.malformed),
           ("good.xml", XmlDoc.parsed ⟨[⟨some "A", some "1", none, ""⟩], []⟩)]).1
          nm2 = some (basicRow [⟨"k1", "Is it on?", some "A", none⟩]
            (parseXmlToFlags px))) := by
  exact error_isolation [⟨"k1", "Is it on?", some "A", none⟩]
    [("bad.xml", XmlDoc.malformed),
     ("good.xml", XmlDoc.parsed ⟨[⟨some "A", some "1", none, ""⟩], []⟩)]
    (by decide) "bad.xml" (by decide)

theorem specProgressTrace_pairwise (n : Nat) (hn : 1 ≤ n) :
    (specProgressTrace n).Pairwise (· < ·) := by
  have hpos : (0 : ℚ) < (n : ℚ) := by exact_mod_cast hn
  simp only [specProgressTrace]
  apply List.Pairwise.map _ ?_ (List.pairwise_lt_range n)
  intro a b hab
  rw [div_lt_div_iff_of_pos_right hpos]
  have : (a : ℚ) < (b : ℚ) := by exact_mod_cast hab
  linarith

theorem specProgressTrace_bounds (n : Nat) (hn : 1 ≤ n) :
    ∀ q ∈ specProgressTrace n, 0 < q ∧ q ≤ 1 := by
  have hpos : (0 : ℚ) < (n : ℚ) := by exact_mod_cast hn
  intro q hq
  simp only [specProgressTrace, List.mem_map] at hq
  obtain ⟨i, hi, rfl⟩ := hq
  have hi' : i < n := List.mem_range.mp hi
  constructor
  · apply div_pos ?_ hpos
    positivity
  · rw [div_le_one hpos]
    have h1 : (i + 1 : ℕ) ≤ n := hi'
    exact_mod_cast h1

theorem specProgressTrace_getLast (n : Nat) (hn : 1 ≤ n) :
    (specProgressTrace n).getLast? = some 1 := by
  obtain ⟨m, rfl⟩ : ∃ m, n = m + 1 := ⟨n - 1, by omega⟩
  simp only [specProgressTrace, List.range_succ, List.map_append,
    List.map_cons, List.map_nil]
  rw [List.getLast?_concat]
  have hcast : ((m + 1 : ℕ) : ℚ) = (m : ℚ) + 1 := by push_cast; ring
  rw [hcast, div_self (by positivity)]

/-- C8: both orchestrators report progress exactly once per document, in
order, as the completed fraction `(i+1)/n`; the emitted sequence is
strictly increasing, lies in `(0, 1]`, and ends at exactly 1. -/
theorem progress_reporting (prompts : List Prompt) (opts : OptsMap)
    (files : List (String × XmlDoc)) (hn : 1 ≤ files.length) :
    (fillDataFromXmls prompts files).2 = specProgressTrace files.length
    ∧ (fillDataFromXmlsEnhanced prompts files opts).2 =
        specProgressTrace files.length
    ∧ (specProgressTrace files.length).Pairwise (· < ·)
    ∧ (∀ q ∈ specProgressTrace files.length, 0 < q ∧ q ≤ 1)
    ∧ (specProgressTrace files.length).getLast? = some 1 := by
  refine ⟨?_, ?_, specProgressTrace_pairwise _ hn,
    specProgressTrace_bounds _ hn, specProgressTrace_getLast _ hn⟩
  · simp only [fillDataFromXmls]
    rw [runBatch_snd]
    simp only [specProgressTrace]
    congr 1
    funext i
    congr 1
    push_cast
    ring
  · simp only [fillDataFromXmlsEnhanced]
    rw [runBatch_snd]
    simp only [specProgressTrace]
    congr 1
    funext i
    congr 1
    push_cast
    ring

/-- Witness for C8: a two-document run (one success, one failure) reports
`[1/2, 1]` in both orchestrators. -/
theorem progress_reporting_witness :
    (fillDataFromXmls []
        [("a", XmlDoc.parsed ⟨[], []⟩), ("b", XmlDoc.malformed)]).2 =
      specProgressTrace 2
    ∧ (fillDataFromXmlsEnhanced []
        [("a", XmlDoc.parsed ⟨[], []⟩), ("b", XmlDoc.malformed)] []).2 =
      specProgressTrace 2
    ∧ (specProgressTrace 2).Pairwise (· < ·)
    ∧ (∀ q ∈ specProgressTrace 2, 0 < q ∧ q ≤ 1)
    ∧ (specProgressTrace 2).getLast? = some 1 := by
  exact progress_reporting [] []
    [("a", XmlDoc.parsed ⟨[], []⟩), ("b", XmlDoc.malformed)] (by decide)
